import Mathlib

/-!
Shallow embedding of the shhh audio-controlled interface cutter
(src/main.rs).  f32/f64 arithmetic is modelled over the real numbers
(exact real semantics of the same expressions); the percentage and state
machinery is stated generically over a linear ordered field with a floor
so that witnesses can be evaluated over the rationals.  Wall-clock time
(Instant / elapsed) is abstracted into a boolean input per loop
iteration, and the effector set_iface together with the transition log
become explicit output traces.
-/

namespace Shhh

/-- Rust f32::round: round to the nearest integer, ties away from zero
(src/main.rs line 167, `(100.0 * v).round() as i32`). -/
def roundRust {α : Type} [LinearOrderedField α] [FloorRing α] (x : α) : ℤ :=
  if 0 ≤ x then ⌊x + 1 / 2⌋ else -⌊-x + 1 / 2⌋

/-- Percentage computation of run_loop, src/main.rs lines 161-168:
100 when db <= min_db, 0 when db >= max_db, otherwise
round(100 * (1 - (db - min_db) / (max_db - min_db))). -/
def pctOf {α : Type} [LinearOrderedField α] [FloorRing α]
    (minDb maxDb db : α) : ℤ :=
  if db ≤ minDb then 100
  else if maxDb ≤ db then 0
  else roundRust (100 * (1 - (db - minDb) / (maxDb - minDb)))

/-- Display state of run_loop, src/main.rs lines 170-178: "CUT" when the
percentage is 0, otherwise the formatted "OK {pct}%" string. -/
def stateStr (pct : ℤ) : String :=
  if pct = 0 then "CUT" else "OK " ++ toString pct ++ "%"

theorem roundRust_mono {α : Type} [LinearOrderedField α] [FloorRing α]
    {x y : α} (h : x ≤ y) : roundRust x ≤ roundRust y := by
  unfold roundRust
  rcases le_or_lt 0 x with hx | hx
  · rw [if_pos hx, if_pos (hx.trans h)]
    exact Int.floor_mono (by linarith)
  · rcases le_or_lt 0 y with hy | hy
    · rw [if_neg (not_le.mpr hx), if_pos hy]
      have h1 : (0 : ℤ) ≤ ⌊-x + 1 / 2⌋ := Int.le_floor.mpr (by push_cast; linarith)
      have h2 : (0 : ℤ) ≤ ⌊y + 1 / 2⌋ := Int.le_floor.mpr (by push_cast; linarith)
      omega
    · rw [if_neg (not_le.mpr hx), if_neg (not_le.mpr hy)]
      have : ⌊-y + 1 / 2⌋ ≤ ⌊-x + 1 / 2⌋ := Int.floor_mono (by linarith)
      omega

theorem roundRust_nonneg {α : Type} [LinearOrderedField α] [FloorRing α]
    {x : α} (h : 0 ≤ x) : 0 ≤ roundRust x := by
  unfold roundRust
  rw [if_pos h]
  exact Int.le_floor.mpr (by push_cast; linarith)

theorem roundRust_le {α : Type} [LinearOrderedField α] [FloorRing α]
    {x : α} {n : ℤ} (hn : 0 ≤ n) (h : x < n) : roundRust x ≤ n := by
  unfold roundRust
  rcases le_or_lt 0 x with hx | hx
  · rw [if_pos hx]
    have : ⌊x + 1 / 2⌋ < n + 1 := by
      rw [Int.floor_lt]
      push_cast
      linarith
    omega
  · rw [if_neg (not_le.mpr hx)]
    have h1 : (0 : ℤ) ≤ ⌊-x + 1 / 2⌋ := Int.le_floor.mpr (by push_cast; linarith)
    omega

/-- Level converter rms_to_db, src/main.rs lines 33-36, f32 arithmetic
modelled over the reals: at or below the 1e-12 silence floor the -999.0
sentinel is returned, otherwise 20 * log10 rms. -/
noncomputable def rms_to_db (rms : ℝ) : ℝ :=
  if rms ≤ 1e-12 then -999 else 20 * Real.logb 10 rms

/-- Window RMS of run_loop, src/main.rs lines 150-155: an empty buffer
yields 0, otherwise the square root of the mean of the squares. -/
noncomputable def rmsOf (buf : List ℝ) : ℝ :=
  if buf.isEmpty then 0
  else Real.sqrt ((buf.map fun s => s * s).sum / buf.length)

/-- One channel event observed by recv_timeout: some s for Ok(s), none
for a Timeout tick. -/
abbrev RecvEvent := Option ℝ

/-- The sample-collection loop of calibrate, src/main.rs lines 23-27:
keep receiving until n samples have been pushed, ignoring timeouts;
none models the stream running dry (the Rust loop would spin forever
in that case, so every terminating execution is a some). -/
def collectSamples : List RecvEvent → ℕ → Option (List ℝ)
  | _, 0 => some []
  | [], _ + 1 => none
  | none :: es, n + 1 => collectSamples es (n + 1)
  | some s :: es, n + 1 => (collectSamples es n).map (s :: ·)

/-- calibrate, src/main.rs lines 21-31: collect samples_per_window * 6
samples, compute one aggregate RMS over the whole buffer, convert to
dB via rms_to_db. -/
noncomputable def calibrate (events : List RecvEvent)
    (samplesPerWindow : ℕ) : Option ℝ :=
  (collectSamples events (samplesPerWindow * 6)).map fun buf =>
    rms_to_db (Real.sqrt ((buf.map fun s => s * s).sum / buf.length))

/-- The calibration record: ambient level plus derived thresholds. -/
structure Calibration where
  ambientDb : ℝ
  minDb : ℝ
  maxDb : ℝ

/-- Threshold derivation of run_loop, src/main.rs lines 114-116:
min_db = ambient_db + 15 (soft), max_db = ambient_db + 45 (cut). -/
def mkCalibration (ambientDb : ℝ) : Calibration :=
  ⟨ambientDb, ambientDb + 15, ambientDb + 45⟩

/-- Mutable state of run_loop across iterations (src/main.rs lines
109-112): the partial window buffer, the last logged state string, and
the iface_disabled flag.  last_sample_time is abstracted into the
per-iteration silent input of loopIter. -/
structure LoopState where
  buffer : List ℝ
  lastState : Option String
  ifaceDisabled : Bool

/-- Initial loop state, src/main.rs lines 109-112. -/
def initState : LoopState := ⟨[], none, false⟩

/-- Observable outcome of one loop iteration: successor state, the
set_iface calls issued (in order), the transition log lines emitted
(db value and state string), and the computed level/percentage/state
when the iteration reached the RMS stage (none when the watchdog
skipped it). -/
structure IterResult where
  state : LoopState
  calls : List Bool
  logs : List (ℝ × String)
  computed : Option (ℝ × ℤ × String)

/-- One iteration of the steady-state loop body, src/main.rs lines
119-186.  received holds the samples appended to the window buffer by
this round of the collection loop; silent is the watchdog condition
last_sample_time.elapsed() > 3s evaluated at line 138. -/
noncomputable def loopIter (cal : Calibration) (st : LoopState)
    (received : List ℝ) (silent : Bool) : IterResult :=
  let buffer := st.buffer ++ received
  if silent then
    if st.ifaceDisabled then
      ⟨⟨[], st.lastState, false⟩, [true], [], none⟩
    else
      ⟨⟨[], st.lastState, st.ifaceDisabled⟩, [], [], none⟩
  else
    let rms := rmsOf buffer
    let db := rms_to_db rms
    let pct := pctOf cal.minDb cal.maxDb db
    let state := stateStr pct
    let calls : List Bool := if pct = 0 then [false] else [true]
    let disabled : Bool := if pct = 0 then true else false
    ⟨⟨[], if some state ≠ st.lastState then some state else st.lastState,
        disabled⟩,
      calls,
      if some state ≠ st.lastState then [(db, state)] else [],
      some (db, pct, state)⟩

/-- Iterated run of the loop body from a given state, returning the
final state and the chronological set_iface call trace. -/
noncomputable def runSteps (cal : Calibration) :
    LoopState → List (List ℝ × Bool) → LoopState × List Bool
  | st, [] => (st, [])
  | st, (rcv, sil) :: rest =>
    let r := loopIter cal st rcv sil
    let p := runSteps cal r.state rest
    (p.1, r.calls ++ p.2)

/-- Percentage bound: every branch of the percentage computation lands
in 0..=100 (the interpolation branch only runs when minDb < db < maxDb,
which forces a positive divisor). -/
theorem pctOf_mem {α : Type} [LinearOrderedField α] [FloorRing α]
    (minDb maxDb db : α) :
    0 ≤ pctOf minDb maxDb db ∧ pctOf minDb maxDb db ≤ 100 := by
  unfold pctOf
  rcases le_or_lt db minDb with h1 | h1
  · rw [if_pos h1]; omega
  · rw [if_neg (not_le.mpr h1)]
    rcases le_or_lt maxDb db with h2 | h2
    · rw [if_pos h2]; omega
    · rw [if_neg (not_le.mpr h2)]
      have hpos : (0 : α) < maxDb - minDb := by linarith
      have hfrac0 : 0 < (db - minDb) / (maxDb - minDb) :=
        div_pos (by linarith) hpos
      have hfrac1 : (db - minDb) / (maxDb - minDb) < 1 := by
        rw [div_lt_one hpos]; linarith
      constructor
      · exact roundRust_nonneg (by nlinarith)
      · exact roundRust_le (by norm_num) (by nlinarith)

/-- Helper: the state string is "CUT" exactly for percentage 0; any
nonzero percentage renders as "OK {pct}%", which is never "CUT". -/
theorem stateStr_eq_cut_iff (p : ℤ) : stateStr p = "CUT" ↔ p = 0 := by
  unfold stateStr
  rcases eq_or_ne p 0 with h | h
  · simp [h]
  · rw [if_neg h]
    constructor
    · intro hs
      exfalso
      have hlen := congrArg String.length hs
      have h1 : ("OK " : String).length = 3 := rfl
      have h2 : ("%" : String).length = 1 := rfl
      have h3 : ("CUT" : String).length = 3 := rfl
      simp [String.length_append, h1, h2, h3] at hlen
      omega
    · intro h0
      exact absurd h0 h

/-- C1: the threshold mapping of run_loop yields percentage 100 at or
below min_db, 0 at or above max_db, and the rounded linear
interpolation strictly in between; the displayed state is "CUT" exactly
when the percentage is 0 and the Active rendering "OK {pct}%"
otherwise.  The hypothesis mn < mx holds for every calibration the
program produces (max_db - min_db = 30). -/
theorem threshold_mapping_spec (mn mx db : ℝ) (h : mn < mx) :
    (db ≤ mn → pctOf mn mx db = 100) ∧
    (mx ≤ db → pctOf mn mx db = 0) ∧
    (mn < db → db < mx →
      pctOf mn mx db = roundRust (100 * (1 - (db - mn) / (mx - mn)))) ∧
    (stateStr (pctOf mn mx db) = "CUT" ↔ pctOf mn mx db = 0) ∧
    (pctOf mn mx db ≠ 0 →
      stateStr (pctOf mn mx db) = "OK " ++ toString (pctOf mn mx db) ++ "%") := by
  refine ⟨?_, ?_, ?_, stateStr_eq_cut_iff _, ?_⟩
  · intro hle
    unfold pctOf
    rw [if_pos hle]
  · intro hge
    unfold pctOf
    rw [if_neg (not_le.mpr (h.trans_le hge)), if_pos hge]
  · intro hlo hhi
    unfold pctOf
    rw [if_neg (not_le.mpr hlo), if_neg (not_le.mpr hhi)]
  · intro hne
    unfold stateStr
    rw [if_neg hne]

/-- Witness for C1 at the calibration thresholds 0 and 30: one concrete
input for each of the three percentage branches and the state mapping. -/
theorem threshold_mapping_spec_witness :
    pctOf (0 : ℝ) 30 (-5) = 100 ∧ pctOf (0 : ℝ) 30 40 = 0 ∧
    pctOf (0 : ℝ) 30 15 = roundRust (100 * (1 - ((15 : ℝ) - 0) / (30 - 0))) ∧
    (stateStr (pctOf (0 : ℝ) 30 40) = "CUT" ↔ pctOf (0 : ℝ) 30 40 = 0) :=
  ⟨(threshold_mapping_spec 0 30 (-5) (by norm_num)).1 (by norm_num),
   (threshold_mapping_spec 0 30 40 (by norm_num)).2.1 (by norm_num),
   (threshold_mapping_spec 0 30 15 (by norm_num)).2.2.1 (by norm_num) (by norm_num),
   (threshold_mapping_spec 0 30 40 (by norm_num)).2.2.2.1⟩

/-- C4: the level converter returns exactly the -999.0 sentinel for
every rms at or below the 1e-12 silence floor (including rms = 0), and
over the real-valued model it is total with no side effects: every
output is either the sentinel or the real number 20 * log10 rms, so no
NaN or infinity can be produced. -/
theorem rms_to_db_sentinel (rms : ℝ) :
    (rms ≤ 1e-12 → rms_to_db rms = -999) ∧
    (rms_to_db rms = -999 ∨ rms_to_db rms = 20 * Real.logb 10 rms) := by
  unfold rms_to_db
  rcases le_or_lt rms 1e-12 with h | h
  · rw [if_pos h]
    exact ⟨fun _ => rfl, Or.inl rfl⟩
  · rw [if_neg (not_le.mpr h)]
    exact ⟨fun h2 => absurd h2 (not_le.mpr h), Or.inr rfl⟩

/-- Witness for C4 at rms = 0: the silence floor applies and the
sentinel is returned. -/
theorem rms_to_db_sentinel_witness :
    (0 : ℝ) ≤ 1e-12 ∧ rms_to_db 0 = -999 :=
  ⟨by norm_num, (rms_to_db_sentinel 0).1 (by norm_num)⟩

/-- Counterexample to C5 as stated: rms = 1e-12 is strictly positive,
yet the code returns the -999 sentinel while 20 * log10(1e-12) = -240,
so "for every rms > 0 the converter returns 20 * log10 rms" fails. -/
theorem rms_to_db_log_counterexample :
    (0 : ℝ) < 1e-12 ∧ rms_to_db 1e-12 ≠ 20 * Real.logb 10 1e-12 := by
  refine ⟨by norm_num, ?_⟩
  have h1 : rms_to_db 1e-12 = -999 := by
    unfold rms_to_db
    rw [if_pos le_rfl]
  have h2 : Real.logb 10 (1e-12 : ℝ) = -12 := by
    have he : (1e-12 : ℝ) = ((10 : ℝ) ^ (12 : ℕ))⁻¹ := by norm_num
    rw [he, Real.logb_inv, Real.logb_pow, Real.logb_self_eq_one (by norm_num)]
    norm_num
  rw [h1, h2]
  norm_num

/-- C5 amended: for every rms strictly above the 1e-12 silence floor,
the level converter returns 20 * log10 rms. -/
theorem rms_to_db_log_above_floor (rms : ℝ) (h : 1e-12 < rms) :
    rms_to_db rms = 20 * Real.logb 10 rms := by
  unfold rms_to_db
  rw [if_neg (not_le.mpr h)]

/-- Witness for the amended C5 at rms = 10. -/
theorem rms_to_db_log_above_floor_witness :
    (1e-12 : ℝ) < 10 ∧ rms_to_db 10 = 20 * Real.logb 10 10 :=
  ⟨by norm_num, rms_to_db_log_above_floor 10 (by norm_num)⟩

/-- C6: with a fixed calibration whose thresholds satisfy mn < mx, the
percentage is monotonically decreasing in db across all three branches
of the mapping. -/
theorem pct_antitone {α : Type} [LinearOrderedField α] [FloorRing α]
    (mn mx d1 d2 : α) (hr : mn < mx) (h : d1 ≤ d2) :
    pctOf mn mx d2 ≤ pctOf mn mx d1 := by
  rcases le_or_lt d2 mn with h2 | h2
  · have e1 : pctOf mn mx d1 = 100 := by
      unfold pctOf
      rw [if_pos (h.trans h2)]
    have e2 : pctOf mn mx d2 = 100 := by
      unfold pctOf
      rw [if_pos h2]
    omega
  · rcases le_or_lt mx d2 with h3 | h3
    · have e2 : pctOf mn mx d2 = 0 := by
        unfold pctOf
        rw [if_neg (not_le.mpr h2), if_pos h3]
      have := (pctOf_mem mn mx d1).1
      omega
    · have e2 : pctOf mn mx d2 = roundRust (100 * (1 - (d2 - mn) / (mx - mn))) := by
        unfold pctOf
        rw [if_neg (not_le.mpr h2), if_neg (not_le.mpr h3)]
      rcases le_or_lt d1 mn with h4 | h4
      · have e1 : pctOf mn mx d1 = 100 := by
          unfold pctOf
          rw [if_pos h4]
        have := (pctOf_mem mn mx d2).2
        omega
      · have h5 : d1 < mx := lt_of_le_of_lt h h3
        have e1 : pctOf mn mx d1 = roundRust (100 * (1 - (d1 - mn) / (mx - mn))) := by
          unfold pctOf
          rw [if_neg (not_le.mpr h4), if_neg (not_le.mpr h5)]
        rw [e1, e2]
        apply roundRust_mono
        have hpos : (0 : α) < mx - mn := by linarith
        have hdiv : (d1 - mn) / (mx - mn) ≤ (d2 - mn) / (mx - mn) :=
          (div_le_div_iff_of_pos_right hpos).mpr (by linarith)
        linarith

/-- Witness for C6 with thresholds 0 < 30 and readings 5 ≤ 20. -/
theorem pct_antitone_witness :
    (0 : ℚ) < 30 ∧ (5 : ℚ) ≤ 20 ∧ pctOf (0 : ℚ) 30 20 ≤ pctOf (0 : ℚ) 30 5 :=
  ⟨by norm_num, by norm_num, pct_antitone 0 30 5 20 (by norm_num) (by norm_num)⟩

/-- C7: the finalized window RMS is the square root of the mean of the
squared samples, and an empty window yields rms = 0. -/
theorem rms_window_spec :
    rmsOf [] = 0 ∧
    ∀ buf : List ℝ, buf ≠ [] →
      rmsOf buf = Real.sqrt ((buf.map fun s => s ^ 2).sum / buf.length) := by
  constructor
  · unfold rmsOf
    simp
  · intro buf hb
    unfold rmsOf
    rw [if_neg (by simpa using hb)]
    have hsq : (fun s : ℝ => s * s) = fun s : ℝ => s ^ 2 := by
      funext s
      ring
    rw [hsq]

/-- Witness for C7 on the one-sample window [1]. -/
theorem rms_window_spec_witness :
    ([1] : List ℝ) ≠ [] ∧
    rmsOf [1] = Real.sqrt ((([1] : List ℝ).map fun s => s ^ 2).sum /
      ([1] : List ℝ).length) :=
  ⟨by simp, rms_window_spec.2 [1] (by simp)⟩

/-- C10: every calibration the program can produce has
max_db - min_db = 30, a positive finite range, so the interpolation
branch divides by a positive constant, the inverted-range case is
unreachable, and the percentage lies in 0..=100 in all three
branches. -/
theorem calibration_range_spec (ambient : ℝ) :
    (mkCalibration ambient).maxDb - (mkCalibration ambient).minDb = 30 ∧
    (mkCalibration ambient).minDb < (mkCalibration ambient).maxDb ∧
    ∀ db : ℝ,
      0 ≤ pctOf (mkCalibration ambient).minDb (mkCalibration ambient).maxDb db ∧
      pctOf (mkCalibration ambient).minDb (mkCalibration ambient).maxDb db ≤ 100 := by
  refine ⟨?_, ?_, fun db => pctOf_mem _ _ db⟩
  · show ambient + 45 - (ambient + 15) = 30
    ring
  · show ambient + 15 < ambient + 45
    linarith

/-- Helper: a terminating run of the calibration collection loop has
gathered exactly the first n successfully received samples. -/
theorem collectSamples_eq :
    ∀ (es : List RecvEvent) (n : ℕ) (buf : List ℝ),
      collectSamples es n = some buf →
      buf.length = n ∧ buf = (es.filterMap id).take n := by
  intro es
  induction es with
  | nil =>
    intro n buf h
    cases n with
    | zero =>
      simp only [collectSamples, Option.some.injEq] at h
      subst h
      simp
    | succ m =>
      simp only [collectSamples] at h
      exact absurd h (by simp)
  | cons e es ih =>
    intro n buf h
    cases n with
    | zero =>
      simp only [collectSamples, Option.some.injEq] at h
      subst h
      simp
    | succ m =>
      cases e with
      | none =>
        simp only [collectSamples] at h
        obtain ⟨h1, h2⟩ := ih (m + 1) buf h
        exact ⟨h1, by simpa using h2⟩
      | some s =>
        simp only [collectSamples] at h
        rw [Option.map_eq_some'] at h
        obtain ⟨b0, hb0, rfl⟩ := h
        obtain ⟨h1, h2⟩ := ih m b0 hb0
        constructor
        · simp [h1]
        · simp [h2]

/-- C2: whenever the calibration collection loop terminates it has
collected exactly samples_per_window * 6 samples (the first that many
successful receives), calibrate applies the level converter to the one
aggregate RMS taken over the entire collected buffer, and the derived
thresholds sit at ambient_db + 15 and ambient_db + 45. -/
theorem calibrate_spec :
    (∀ (events : List RecvEvent) (spw : ℕ) (buf : List ℝ),
      collectSamples events (spw * 6) = some buf →
      buf.length = spw * 6 ∧
      buf = (events.filterMap id).take (spw * 6) ∧
      calibrate events spw =
        some (rms_to_db (Real.sqrt ((buf.map fun s => s * s).sum / buf.length)))) ∧
    ∀ ambient : ℝ,
      (mkCalibration ambient).minDb = ambient + 15 ∧
      (mkCalibration ambient).maxDb = ambient + 45 := by
  constructor
  · intro events spw buf h
    obtain ⟨h1, h2⟩ := collectSamples_eq events (spw * 6) buf h
    refine ⟨h1, h2, ?_⟩
    unfold calibrate
    rw [h]
    rfl
  · intro ambient
    exact ⟨rfl, rfl⟩

/-- Witness for C2: a 7-event stream with one timeout yields exactly
the 6 = 1 * 6 samples a single-window calibration needs. -/
theorem calibrate_spec_witness :
    collectSamples [some 1, some 1, none, some 1, some 1, some 1, some 1]
      (1 * 6) = some [1, 1, 1, 1, 1, 1] ∧
    ([1, 1, 1, 1, 1, 1] : List ℝ).length = 1 * 6 ∧
    calibrate [some 1, some 1, none, some 1, some 1, some 1, some 1] 1 =
      some (rms_to_db (Real.sqrt
        ((([1, 1, 1, 1, 1, 1] : List ℝ).map fun s => s * s).sum /
          ([1, 1, 1, 1, 1, 1] : List ℝ).length))) := by
  have h : collectSamples [some 1, some 1, none, some 1, some 1, some 1, some 1]
      (1 * 6) = some [1, 1, 1, 1, 1, 1] := rfl
  obtain ⟨h1, _, h3⟩ := calibrate_spec.1 _ 1 _ h
  exact ⟨h, h1, h3⟩

/-- C3: on a watchdog iteration (no sample for more than 3 seconds) the
enable effector is invoked exactly once when and only when the
interface is currently marked disabled, the disabled flag ends false,
the partial window buffer is cleared, and the iteration skips without
computing a level, percentage or state (and without logging). -/
theorem watchdog_spec (cal : Calibration) (st : LoopState)
    (received : List ℝ) :
    (loopIter cal st received true).calls =
      (if st.ifaceDisabled then [true] else []) ∧
    (loopIter cal st received true).state.ifaceDisabled = false ∧
    (loopIter cal st received true).state.buffer = [] ∧
    (loopIter cal st received true).computed = none ∧
    (loopIter cal st received true).state.lastState = st.lastState ∧
    (loopIter cal st received true).logs = [] := by
  cases h : st.ifaceDisabled <;> simp [loopIter, h]

/-- C8: on a non-watchdog iteration a transition line is logged exactly
when the freshly computed state string differs from the previous
iteration's stored string, and afterwards the stored string equals the
fresh one either way -- so a repeat of the same percentage cannot log
again, while any textually different state (such as "OK 50%" versus
"OK 51%") logs anew. -/
theorem log_dedup_spec (cal : Calibration) (st : LoopState)
    (received : List ℝ) (db : ℝ) (pct : ℤ) (s : String)
    (h : (loopIter cal st received false).computed = some (db, pct, s)) :
    ((loopIter cal st received false).logs ≠ [] ↔ some s ≠ st.lastState) ∧
    (loopIter cal st received false).state.lastState = some s := by
  simp only [loopIter, Bool.false_eq_true, if_false, Option.some.injEq,
    Prod.mk.injEq] at h ⊢
  obtain ⟨h1, h2, h3⟩ := h
  subst h1
  subst h2
  subst h3
  by_cases hc :
      some (stateStr (pctOf cal.minDb cal.maxDb
        (rms_to_db (rmsOf (st.buffer ++ received))))) = st.lastState
  · rw [if_neg (by simpa using hc), if_neg (by simpa using hc)]
    exact ⟨by simp [hc], hc.symm⟩
  · rw [if_pos (by simpa using hc), if_pos (by simpa using hc)]
    exact ⟨by simp [hc], rfl⟩

/-- Witness for C8: first window of the quiet stream, previous state
none: the computed triple is (-999, 100, "OK 100%") and the transition
is logged because none was stored before. -/
theorem log_dedup_spec_witness :
    (loopIter (mkCalibration 0) initState [] false).computed =
      some (-999, 100, "OK 100%") ∧
    ((loopIter (mkCalibration 0) initState [] false).logs ≠ [] ↔
      some "OK 100%" ≠ initState.lastState) := by
  have h : (loopIter (mkCalibration 0) initState [] false).computed =
      some (-999, 100, "OK 100%") := by
    have hdb : rms_to_db (rmsOf (initState.buffer ++ [])) = -999 := by
      have : rmsOf (initState.buffer ++ []) = 0 := by
        simp [initState, rmsOf]
      rw [this]
      unfold rms_to_db
      rw [if_pos (by norm_num)]
    have hpct : pctOf (mkCalibration 0).minDb (mkCalibration 0).maxDb (-999 : ℝ)
        = 100 := by
      unfold pctOf
      rw [if_pos (by norm_num [mkCalibration])]
    have hst : stateStr 100 = "OK 100%" := by decide
    simp only [loopIter, Bool.false_eq_true, if_false, hdb, hpct, hst]
  exact ⟨h, (log_dedup_spec (mkCalibration 0) initState [] (-999) 100
    "OK 100%" h).1⟩

/-- Helper: one iteration issues at most one set_iface call, and the
iface_disabled flag afterwards equals the negation of that call, or is
untouched when no call was made. -/
theorem loopIter_flag (cal : Calibration) (st : LoopState)
    (received : List ℝ) (silent : Bool) :
    ((loopIter cal st received silent).calls = [] ∧
      (loopIter cal st received silent).state.ifaceDisabled =
        st.ifaceDisabled) ∨
    ∃ b : Bool, (loopIter cal st received silent).calls = [b] ∧
      (loopIter cal st received silent).state.ifaceDisabled = !b := by
  cases silent with
  | true =>
    cases h : st.ifaceDisabled with
    | true =>
      right
      exact ⟨true, by simp [loopIter, h], by simp [loopIter, h]⟩
    | false =>
      left
      exact ⟨by simp [loopIter, h], by simp [loopIter, h]⟩
  | false =>
    right
    by_cases hp : pctOf cal.minDb cal.maxDb
        (rms_to_db (rmsOf (st.buffer ++ received))) = 0
    · exact ⟨false, by simp [loopIter, hp], by simp [loopIter, hp]⟩
    · exact ⟨true, by simp [loopIter, hp], by simp [loopIter, hp]⟩

/-- Helper: the final iface_disabled flag of a run equals the negation
of the last set_iface call of its trace, or the starting flag when the
trace is empty. -/
theorem runSteps_flag (cal : Calibration) :
    ∀ (inputs : List (List ℝ × Bool)) (st : LoopState),
      (runSteps cal st inputs).1.ifaceDisabled =
        (match (runSteps cal st inputs).2.getLast? with
          | some b => !b
          | none => st.ifaceDisabled) := by
  intro inputs
  induction inputs with
  | nil =>
    intro st
    simp [runSteps]
  | cons p rest ih =>
    intro st
    obtain ⟨rcv, sil⟩ := p
    simp only [runSteps]
    rcases loopIter_flag cal st rcv sil with ⟨hc, hf⟩ | ⟨b, hc, hf⟩
    · rw [hc, List.nil_append,
        ih ((loopIter cal st rcv sil).state)]
      cases hL : (runSteps cal (loopIter cal st rcv sil).state rest).2.getLast?
      · simp [hf]
      · simp
    · rw [hc, ih ((loopIter cal st rcv sil).state)]
      cases hL : (runSteps cal (loopIter cal st rcv sil).state rest).2.getLast?
        with
      | none =>
        have ht : (runSteps cal (loopIter cal st rcv sil).state rest).2 = [] :=
          List.getLast?_eq_none_iff.mp hL
        rw [ht, List.append_nil]
        simp [hf]
      | some c =>
        have ht : (runSteps cal (loopIter cal st rcv sil).state rest).2 ≠ [] := by
          intro he
          rw [he] at hL
          simp at hL
        rw [List.getLast?_append_of_ne_nil _ ht, hL]

/-- C9: after any run of the steady-state loop from its initial state,
the iface_disabled flag is true exactly when the most recent set_iface
call issued by the loop was set_iface(false); before any call the flag
is still false. -/
theorem iface_flag_reflects_last_call (cal : Calibration)
    (inputs : List (List ℝ × Bool)) :
    (runSteps cal initState inputs).1.ifaceDisabled = true ↔
      (runSteps cal initState inputs).2.getLast? = some false := by
  rw [runSteps_flag cal inputs initState]
  cases h : (runSteps cal initState inputs).2.getLast? with
  | none => simp [initState]
  | some b => cases b <;> simp

end Shhh
